import Mathlib

/-!
Verification of the Game-of-Space-and-Time server module
(`src/server/src/lib.rs`), a SpacetimeDB Conway's-Game-of-Life core.

The tables (`alive_cells`, `players`, `config`, `tick_schedule`) are embedded
as lists of rows; each reducer is embedded as a pure function on that state,
returning `Except String` where the Rust code can abort the transaction
(`unwrap` on `None`).  The two `HashMap`s inside `tick` are embedded as
association lists built in deterministic insertion order; the unspecified
iteration order of a Rust `HashMap` is made explicit as parameters: `cands`
(the candidate map in some enumeration order) and `sigma` (the reordering the
counts map applies before `max_by_key`).  The real execution corresponds to
`cands` being a permutation of `aggregate db` and `sigma l` a permutation
of `l`.
-/

set_option maxHeartbeats 1000000

namespace GameOfSpaceAndTime

/-- A board coordinate: the source `Cell` struct, which is compared and
hashed on `(x, y)` only, so it is exactly a pair. -/
abbrev Cell := Int × Int

/-- A row of the `alive_cells` table. -/
structure AliveCell where
  x : Int
  y : Int
  player_id : Nat
  deriving DecidableEq, Repr

/-- Source constant `MARGIN: i32 = 5`. -/
def MARGIN : Int := 5

/-- Source constant `MIN_X: i32 = -MARGIN`. -/
def MIN_X : Int := -MARGIN

/-- Source constant `MIN_Y: i32 = -MARGIN`. -/
def MIN_Y : Int := -MARGIN

/-- Source constant `MAX_X: i32 = 192 + MARGIN`. -/
def MAX_X : Int := 192 + MARGIN

/-- Source constant `MAX_Y: i32 = 108 + MARGIN`. -/
def MAX_Y : Int := 108 + MARGIN

/-- The culling test in `tick`:
`cell.x < MIN_X || cell.x > MAX_X || cell.y < MIN_Y || cell.y > MAX_Y`. -/
def outOfBounds (k : Cell) : Bool :=
  decide (k.1 < MIN_X) || decide (k.1 > MAX_X) || decide (k.2 < MIN_Y) || decide (k.2 > MAX_Y)

/-- Point lookup `ctx.db.alive_cells().coordinates().filter((x, y)).next().is_some()`:
point lookup through the btree index on `(x, y)`. -/
def isAliveIn (db : List AliveCell) (k : Cell) : Bool :=
  db.any (fun a => decide ((a.x, a.y) = k))

/-- Point delete `ctx.db.alive_cells().coordinates().delete((x, y))`: deletes every row
whose coordinate matches the index key. -/
def deleteAt (db : List AliveCell) (k : Cell) : List AliveCell :=
  db.filter (fun a => !decide ((a.x, a.y) = k))

/-- The smallest `i32` value, -2^31. -/
def I32_MIN : Int := -2147483648

/-- The largest `i32` value, 2^31 - 1. -/
def I32_MAX : Int := 2147483647

/-- Wrapping `i32` arithmetic (release-mode Rust semantics; a debug build
would panic on overflow instead, aborting the whole tick — either way the
overflowing executions differ from unbounded arithmetic). -/
def wrap32 (n : Int) : Int :=
  (n + 2147483648) % 4294967296 - 2147483648

/-- The list `lo, lo + 1, ...` of the given length. -/
def rangeFrom (lo : Int) : Nat → List Int
  | 0 => []
  | n + 1 => lo :: rangeFrom (lo + 1) n

/-- Rust's inclusive range `lo..=hi`: empty when `lo > hi`. -/
def rangeI (lo hi : Int) : List Int :=
  rangeFrom lo (hi - lo + 1).toNat

/-- The block visited around an alive cell by the aggregation loops:
`for x in alive_cell.x - 1..=alive_cell.x + 1` (outer) and likewise for `y`
(inner), with both bounds computed in wrapping `i32` arithmetic — at an
`i32` extreme the wrapped bound makes the range empty, so such a cell
visits no coordinates at all. -/
def block (a : AliveCell) : List Cell :=
  (rangeI (wrap32 (a.x - 1)) (wrap32 (a.x + 1))).flatMap
    (fun x => (rangeI (wrap32 (a.y - 1)) (wrap32 (a.y + 1))).map (fun y => (x, y)))

/-- Whether a row's coordinates are representable `i32` values — true of
every state the program can store. -/
def i32Valid (a : AliveCell) : Bool :=
  decide (I32_MIN ≤ a.x) && decide (a.x ≤ I32_MAX) &&
  decide (I32_MIN ≤ a.y) && decide (a.y ≤ I32_MAX)

/-- Whether a row's coordinates lie strictly inside the `i32` extremes, so
its 3x3 loops do not wrap. -/
def i32Inner (a : AliveCell) : Bool :=
  decide (I32_MIN < a.x) && decide (a.x < I32_MAX) &&
  decide (I32_MIN < a.y) && decide (a.y < I32_MAX)

/-- One loop body of the aggregation pass:
`neighbours_by_cell.entry(Cell{x,y}).or_insert(Vec::new())`, then
`neighbors.push(alive_cell.player_id)` unless the visited coordinate is the
alive cell itself (`v = none`).  The association list keeps keys in first
insertion order and each vote vector in push order. -/
def addVote (m : List (Cell × List Nat)) (k : Cell) (v : Option Nat) : List (Cell × List Nat) :=
  match m with
  | [] => [(k, v.toList)]
  | e :: rest => if e.1 = k then (e.1, e.2 ++ v.toList) :: rest else e :: addVote rest k v

/-- The two inner `for x`/`for y` loops of the aggregation pass for one
alive cell. -/
def aggregateCell (m : List (Cell × List Nat)) (a : AliveCell) : List (Cell × List Nat) :=
  (block a).foldl (fun m' k => addVote m' k (if k = (a.x, a.y) then none else some a.player_id)) m

/-- The full aggregation pass of `tick`: the contents of `neighbours_by_cell`
after iterating the alive-cell snapshot `cells` in order. -/
def aggregate (cells : List AliveCell) : List (Cell × List Nat) :=
  cells.foldl aggregateCell []

/-- Association-list lookup (first matching key), with `[]` for a missing
key; reads the vote vector of a candidate. -/
def lookupVotes (m : List (Cell × List Nat)) (k : Cell) : List Nat :=
  match m with
  | [] => []
  | e :: rest => if e.1 = k then e.2 else lookupVotes rest k

/-- Whether `c` is one of the 8 neighbours of `k`: Chebyshev distance at most 1 and
not `k` itself. -/
def adjacent8 (c k : Cell) : Bool :=
  decide (k.1 - 1 ≤ c.1) && decide (c.1 ≤ k.1 + 1) &&
  decide (k.2 - 1 ≤ c.2) && decide (c.2 ≤ k.2 + 1) && !decide (c = k)

/-- Whether `k` lies in the 3x3 block centred on `a`. -/
def inBlock (a : AliveCell) (k : Cell) : Bool :=
  decide (a.x - 1 ≤ k.1) && decide (k.1 ≤ a.x + 1) &&
  decide (a.y - 1 ≤ k.2) && decide (k.2 ≤ a.y + 1)

/-- Specification-side (geometric) description of a candidate's vote
vector: the owners of the live 8-neighbours of `k`, in snapshot order. -/
def votesFor (cells : List AliveCell) (k : Cell) : List Nat :=
  (cells.filter (fun a => adjacent8 (a.x, a.y) k)).map (fun a => a.player_id)

/-- Whether alive cell `a` pushes a vote to coordinate `k` in the
aggregation pass: `k` is visited by `a`'s (wrapped) 3x3 loops and is not
`a`'s own coordinate. -/
def contributesTo (a : AliveCell) (k : Cell) : Bool :=
  decide (k ∈ block a) && !decide ((a.x, a.y) = k)

/-- The vote vector the aggregation pass actually builds for `k`: the
owners of the live cells whose wrapped 3x3 block covers `k` (self
excluded), in snapshot order. -/
def pushedVotes (cells : List AliveCell) (k : Cell) : List Nat :=
  (cells.filter (fun a => contributesTo a k)).map (fun a => a.player_id)

/-- One step of `counts.entry(*neighbor).or_insert(0); *count += 1`. -/
def bumpCount (m : List (Nat × Nat)) (p : Nat) : List (Nat × Nat) :=
  match m with
  | [] => [(p, 1)]
  | e :: rest => if e.1 = p then (e.1, e.2 + 1) :: rest else e :: bumpCount rest p

/-- The contents of the `counts: HashMap<u32, u32>` built from a vote
vector, as an association list in first-occurrence order. -/
def buildCounts (votes : List Nat) : List (Nat × Nat) :=
  votes.foldl bumpCount []

/-- Association-list lookup in the counts map, with 0 for a missing key. -/
def lookupCount (m : List (Nat × Nat)) (p : Nat) : Nat :=
  match m with
  | [] => 0
  | e :: rest => if e.1 = p then e.2 else lookupCount rest p

/-- The call `counts.iter().max_by_key(|&(_, count)| count)`: Rust's `max_by_key`
returns the *last* of equally-maximal elements in iteration order. -/
def maxByCount (m : List (Nat × Nat)) : Option (Nat × Nat) :=
  match m with
  | [] => none
  | e :: rest => some (rest.foldl (fun cur n => if cur.2 ≤ n.2 then n else cur) e)

/-- The call `...map(|(&player, _)| player).unwrap_or(0)`: the owner chosen for a
born cell from the counts map in a given iteration order. -/
def mostCommon (m : List (Nat × Nat)) : Nat :=
  match maxByCount m with
  | none => 0
  | some e => e.1

/-- The body of the evaluation loop of `tick` for one candidate `e` (its
coordinate and vote vector): read `is_alive`, cull when alive and out of
bounds, then birth on 3 votes when dead, death when alive with a vote count
other than 2 or 3.  `sigma` is the iteration order the counts `HashMap`
presents to `max_by_key`. -/
def evalStep (sigma : List (Nat × Nat) → List (Nat × Nat))
    (db : List AliveCell) (e : Cell × List Nat) : List AliveCell :=
  let isAlive := isAliveIn db e.1
  let db1 := if isAlive && outOfBounds e.1 then deleteAt db e.1 else db
  if e.2.length == 3 then
    if !isAlive then db1 ++ [⟨e.1.1, e.1.2, mostCommon (sigma (buildCounts e.2))⟩] else db1
  else if e.2.length != 2 && isAlive then deleteAt db1 e.1
  else db1

/-- The evaluation loop of `tick`: candidates processed sequentially in the
order `cands` (the candidate `HashMap`'s iteration order), mutating the
table as it goes — exactly as the source does. -/
def tickRun (sigma : List (Nat × Nat) → List (Nat × Nat))
    (db : List AliveCell) (cands : List (Cell × List Nat)) : List AliveCell :=
  match cands with
  | [] => db
  | e :: rest => tickRun sigma (evalStep sigma db e) rest

/-- Variant of `tickRun` instrumented to also record the `is_alive` value read for each
candidate, in processing order. -/
def tickRunTrace (sigma : List (Nat × Nat) → List (Nat × Nat))
    (db : List AliveCell) (cands : List (Cell × List Nat)) :
    List AliveCell × List (Cell × Bool) :=
  match cands with
  | [] => (db, [])
  | e :: rest =>
    let r := tickRunTrace sigma (evalStep sigma db e) rest
    (r.1, (e.1, isAliveIn db e.1) :: r.2)

/-- The batch kill decision for row `a` under candidate `e`, computed
against the tick-start snapshot: boundary cull, or death by a vote count
other than 2 or 3. -/
def killedBy (e : Cell × List Nat) (a : AliveCell) : Bool :=
  decide ((a.x, a.y) = e.1) && (outOfBounds e.1 || (e.2.length != 2 && e.2.length != 3))

/-- The batch birth decision for candidate `e` against snapshot `db0`:
dead at tick start with exactly 3 votes. -/
def bornAt (db0 : List AliveCell) (e : Cell × List Nat) : Bool :=
  !isAliveIn db0 e.1 && e.2.length == 3

/-- The row inserted when candidate `e` is born. -/
def bornCell (sigma : List (Nat × Nat) → List (Nat × Nat)) (e : Cell × List Nat) : AliveCell :=
  ⟨e.1.1, e.1.2, mostCommon (sigma (buildCounts e.2))⟩

/-- The list of rows (none or one) born from candidate `e` against
snapshot `db0`. -/
def birthsOf (sigma : List (Nat × Nat) → List (Nat × Nat)) (db0 : List AliveCell)
    (e : Cell × List Nat) : List AliveCell :=
  if bornAt db0 e then [bornCell sigma e] else []

/-- Specification-side batch semantics of one tick: every per-candidate
decision is computed against the single tick-start snapshot `db0`, and the
decisions are applied as one batch of point deletes and inserts. -/
def tickBatch (sigma : List (Nat × Nat) → List (Nat × Nat))
    (db0 : List AliveCell) (cands : List (Cell × List Nat)) : List AliveCell :=
  db0.filter (fun a => !cands.any (fun e => killedBy e a)) ++
    (cands.filter (bornAt db0)).map (bornCell sigma)

/-- A row of the `players` table (`Identity` is opaque; a `Nat` tag models
it faithfully, only equality is ever used). -/
structure Player where
  id : Nat
  identity : Nat
  color_hex : String
  deriving DecidableEq

/-- The singleton `config` row. -/
structure Config where
  id : Nat
  tick_interval_ms : Nat
  deriving DecidableEq

/-- The singleton `tick_schedule` row; `scheduled_at_micros` is the period
of the recurring trigger in microseconds (`TimeDuration::from_micros`). -/
structure TickSchedule where
  scheduled_id : Nat
  scheduled_at_micros : Int
  deriving DecidableEq

/-- The whole database state the reducers act on. -/
structure DbState where
  alive_cells : List AliveCell
  players : List Player
  config : List Config
  tick_schedule : List TickSchedule
  deriving DecidableEq

/-- The value 2^32, the modulus of `u32` arithmetic. -/
def U32 : Nat := 4294967296

/-- The `add` reducer: `players().identity().find(ctx.sender).unwrap().id`
aborts the transaction when the caller has no Player row; otherwise one
`AliveCell` is inserted per requested coordinate, with no checks. -/
def add (s : DbState) (sender : Nat) (cells : List Cell) : Except String DbState :=
  match s.players.find? (fun p => p.identity == sender) with
  | none => .error "called Option::unwrap on a None value"
  | some p => .ok { s with alive_cells := s.alive_cells ++ cells.map (fun c => ⟨c.1, c.2, p.id⟩) }

/-- The `set_color` reducer: `if let Some(p) = find(ctx.sender)` — an
unknown identity silently skips the body; otherwise the row with the unique
identity `p.identity` is replaced by one with the same `id` and `identity`
and the new `color_hex`. -/
def set_color (s : DbState) (sender : Nat) (color_hex : String) : Except String DbState :=
  match s.players.find? (fun p => p.identity == sender) with
  | none => .ok s
  | some p =>
    .ok { s with players := s.players.map (fun q =>
      if q.identity == p.identity then ⟨p.id, p.identity, color_hex⟩ else q) }

/-- The `update_tick_interval` reducer: rewrites the Config row (primary key
0) and the trigger row (scheduled_id 0); both `find(...).unwrap()` calls
abort on a missing row.  The trigger period is
`TimeDuration::from_micros((interval_ms * 1000) as i64)`: the
multiplication is performed in `u32`, so it wraps modulo 2^32 before the
widening cast. -/
def update_tick_interval (s : DbState) (interval_ms : Nat) : Except String DbState :=
  match s.config.find? (fun c => c.id == 0) with
  | none => .error "called Option::unwrap on a None value"
  | some c =>
    let c' : Config := ⟨c.id, interval_ms⟩
    let s1 := { s with config := s.config.map (fun (d : Config) => if d.id == c'.id then c' else d) }
    match s1.tick_schedule.find? (fun (t : TickSchedule) => t.scheduled_id == 0) with
    | none => .error "called Option::unwrap on a None value"
    | some t =>
      let t' : TickSchedule := ⟨t.scheduled_id, (((interval_ms * 1000) % U32 : Nat) : Int)⟩
      .ok { s1 with tick_schedule :=
        s1.tick_schedule.map (fun (u : TickSchedule) => if u.scheduled_id == t'.scheduled_id then t' else u) }

/-- The `tick` reducer on the whole database state: it reads and writes only
the `alive_cells` table. -/
def tick (sigma : List (Nat × Nat) → List (Nat × Nat))
    (s : DbState) (cands : List (Cell × List Nat)) : DbState :=
  { s with alive_cells := tickRun sigma s.alive_cells cands }

/-- The key list of the candidate map. -/
def keysOf (m : List (Cell × List Nat)) : List Cell :=
  m.map Prod.fst

/-- The rows of the alive-cell table at one coordinate. -/
def rowsAt (db : List AliveCell) (k : Cell) : List AliveCell :=
  db.filter (fun a => decide ((a.x, a.y) = k))

/-- The horizontal blinker: three colinear alive cells owned by `P`. -/
def blinkerRow (P : Nat) : List AliveCell :=
  [⟨0, 0, P⟩, ⟨1, 0, P⟩, ⟨2, 0, P⟩]

/-- The vertical blinker: the period-2 partner of `blinkerRow`. -/
def blinkerCol (P : Nat) : List AliveCell :=
  [⟨1, -1, P⟩, ⟨1, 0, P⟩, ⟨1, 1, P⟩]

/-- Concrete state for the tie-break counterexample: a dead cell at `(1,1)`
with exactly 3 live neighbours owned by three distinct players. -/
def tieDb : List AliveCell :=
  [⟨0, 0, 1⟩, ⟨1, 0, 2⟩, ⟨2, 0, 3⟩]

/-- Concrete state for the boundary-cull witness: `(198, 0)` is alive, out
of bounds, and has exactly 2 live neighbours. -/
def cullDb : List AliveCell :=
  [⟨198, 0, 1⟩, ⟨198, 1, 1⟩, ⟨199, 1, 1⟩]

/-- Concrete state for the majority-birth witness: dead `(1,1)` has live
neighbours owned 5, 5 and 9. -/
def majDb : List AliveCell :=
  [⟨0, 0, 5⟩, ⟨1, 0, 5⟩, ⟨2, 1, 9⟩]

/-- A lone alive cell at the `i32` maximum: its aggregation loops wrap to
empty ranges, so it creates no candidate entries at all. -/
def boundaryDb : List AliveCell :=
  [⟨2147483647, 0, 1⟩]

/-- Cells at the `i32` boundary for the majority-birth counterexample: the
dead cell `(2147483646, 0)` geometrically has live neighbours owned 5, 5
and 9, but the two cells at `x = i32::MAX` push no votes. -/
def majBoundaryDb : List AliveCell :=
  [⟨2147483647, 0, 5⟩, ⟨2147483647, 1, 5⟩, ⟨2147483645, 0, 9⟩]

/-- A concrete database state with two players, for the reducer witnesses. -/
def sampleState : DbState :=
  ⟨[⟨3, 3, 4⟩], [⟨1, 10, "#FFFFFF"⟩, ⟨2, 20, "#AAAAAA"⟩], [⟨0, 500⟩], [⟨0, 500000⟩]⟩

/-! ### Association-list lemmas for the candidate map -/

theorem lookupVotes_addVote (m : List (Cell × List Nat)) (k k' : Cell) (v : Option Nat) :
    lookupVotes (addVote m k v) k' =
      if k' = k then lookupVotes m k ++ v.toList else lookupVotes m k' := by
  induction m with
  | nil =>
    by_cases h : k' = k
    · subst h
      simp [addVote, lookupVotes]
    · have h2 : ¬ k = k' := fun hc => h hc.symm
      simp [addVote, lookupVotes, h, h2]
  | cons e rest ih =>
    by_cases he : e.1 = k
    · subst he
      by_cases h : k' = e.1
      · subst h
        simp [addVote, lookupVotes]
      · have h2 : ¬ e.1 = k' := fun hc => h hc.symm
        simp [addVote, lookupVotes, h, h2]
    · by_cases h : k' = k
      · subst h
        have h2 : ¬ e.1 = k' := he
        simp [addVote, lookupVotes, he, h2, ih]
      · by_cases h2 : e.1 = k'
        · simp [addVote, lookupVotes, he, h2, h]
        · simp [addVote, lookupVotes, he, h2, h, ih]

theorem keysOf_addVote (m : List (Cell × List Nat)) (k : Cell) (v : Option Nat) :
    keysOf (addVote m k v) = if k ∈ keysOf m then keysOf m else keysOf m ++ [k] := by
  induction m with
  | nil => simp [addVote, keysOf]
  | cons e rest ih =>
    by_cases he : e.1 = k
    · simp [addVote, keysOf, he]
    · simp only [addVote, if_neg he, keysOf, List.map_cons] at ih ⊢
      rw [ih]
      have : ¬ k = e.1 := fun hc => he hc.symm
      by_cases hk : k ∈ rest.map Prod.fst
      · simp [hk, this]
      · simp [hk, this]

theorem mem_keysOf_addVote (m : List (Cell × List Nat)) (k k' : Cell) (v : Option Nat) :
    k' ∈ keysOf (addVote m k v) ↔ k' ∈ keysOf m ∨ k' = k := by
  rw [keysOf_addVote]
  by_cases hk : k ∈ keysOf m
  · rw [if_pos hk]
    constructor
    · intro h
      exact Or.inl h
    · intro h
      rcases h with h | h
      · exact h
      · rw [h]
        exact hk
  · rw [if_neg hk]
    simp [List.mem_append]

theorem nodup_keysOf_addVote (m : List (Cell × List Nat)) (k : Cell) (v : Option Nat)
    (h : (keysOf m).Nodup) : (keysOf (addVote m k v)).Nodup := by
  rw [keysOf_addVote]
  by_cases hk : k ∈ keysOf m
  · rwa [if_pos hk]
  · rw [if_neg hk]
    refine List.Nodup.append h (List.nodup_singleton k) ?_
    intro x hx hx2
    simp only [List.mem_singleton] at hx2
    subst hx2
    exact hk hx

theorem lookupVotes_foldl_addVote (g : Cell → Option Nat) (ks : List Cell) (hks : ks.Nodup)
    (m : List (Cell × List Nat)) (k : Cell) :
    lookupVotes (ks.foldl (fun m' k' => addVote m' k' (g k')) m) k =
      lookupVotes m k ++ if k ∈ ks then (g k).toList else [] := by
  induction ks generalizing m with
  | nil => simp
  | cons k0 rest ih =>
    rcases List.nodup_cons.mp hks with ⟨hk0, hrest⟩
    simp only [List.foldl_cons]
    rw [ih hrest, lookupVotes_addVote]
    by_cases h : k = k0
    · subst h
      simp [hk0]
    · simp [h]

theorem mem_keysOf_foldl_addVote (g : Cell → Option Nat) (ks : List Cell)
    (m : List (Cell × List Nat)) (k : Cell) :
    k ∈ keysOf (ks.foldl (fun m' k' => addVote m' k' (g k')) m) ↔
      k ∈ keysOf m ∨ k ∈ ks := by
  induction ks generalizing m with
  | nil => simp
  | cons k0 rest ih =>
    simp only [List.foldl_cons]
    rw [ih, mem_keysOf_addVote]
    simp [List.mem_cons, or_assoc]

theorem nodup_keysOf_foldl_addVote (g : Cell → Option Nat) (ks : List Cell)
    (m : List (Cell × List Nat)) (h : (keysOf m).Nodup) :
    (keysOf (ks.foldl (fun m' k' => addVote m' k' (g k')) m)).Nodup := by
  induction ks generalizing m with
  | nil => exact h
  | cons k0 rest ih =>
    simp only [List.foldl_cons]
    exact ih _ (nodup_keysOf_addVote _ _ _ h)

/-! ### The wrapped 3x3 block -/

theorem wrap32_eq_self (n : Int) (h1 : -2147483648 ≤ n) (h2 : n ≤ 2147483647) :
    wrap32 n = n := by
  unfold wrap32
  omega

theorem rangeFrom_zero (lo : Int) : rangeFrom lo 0 = [] := rfl

theorem rangeFrom_succ (lo : Int) (n : Nat) :
    rangeFrom lo (n + 1) = lo :: rangeFrom (lo + 1) n := rfl

theorem rangeFrom_three (lo : Int) : rangeFrom lo 3 = [lo, lo + 1, lo + 1 + 1] := rfl

theorem mem_rangeFrom (lo : Int) (n : Nat) (k : Int) :
    k ∈ rangeFrom lo n ↔ lo ≤ k ∧ k < lo + n := by
  induction n generalizing lo with
  | zero => simp [rangeFrom]
  | succ m ih =>
    rw [rangeFrom_succ]
    simp only [List.mem_cons, ih]
    omega

theorem nodup_rangeFrom (lo : Int) (n : Nat) : (rangeFrom lo n).Nodup := by
  induction n generalizing lo with
  | zero => exact List.nodup_nil
  | succ m ih =>
    rw [rangeFrom_succ, List.nodup_cons]
    refine ⟨?_, ih (lo + 1)⟩
    rw [mem_rangeFrom]
    omega

theorem mem_rangeI (lo hi k : Int) : k ∈ rangeI lo hi ↔ lo ≤ k ∧ k ≤ hi := by
  unfold rangeI
  rw [mem_rangeFrom]
  omega

theorem nodup_rangeI (lo hi : Int) : (rangeI lo hi).Nodup := nodup_rangeFrom _ _

theorem mem_block_iff (a : AliveCell) (k : Cell) :
    k ∈ block a ↔
      (wrap32 (a.x - 1) ≤ k.1 ∧ k.1 ≤ wrap32 (a.x + 1) ∧
        wrap32 (a.y - 1) ≤ k.2 ∧ k.2 ≤ wrap32 (a.y + 1)) := by
  obtain ⟨kx, ky⟩ := k
  unfold block
  rw [List.mem_flatMap]
  constructor
  · rintro ⟨x, hx, hy⟩
    rw [List.mem_map] at hy
    obtain ⟨y, hy, heq⟩ := hy
    rw [Prod.mk.injEq] at heq
    obtain ⟨rfl, rfl⟩ := heq
    rw [mem_rangeI] at hx hy
    exact ⟨hx.1, hx.2, hy.1, hy.2⟩
  · rintro ⟨h1, h2, h3, h4⟩
    exact ⟨kx, (mem_rangeI _ _ _).mpr ⟨h1, h2⟩,
      List.mem_map.mpr ⟨ky, (mem_rangeI _ _ _).mpr ⟨h3, h4⟩, rfl⟩⟩

theorem block_nodup (a : AliveCell) : (block a).Nodup := by
  unfold block
  rw [List.nodup_flatMap]
  constructor
  · intro x _
    exact (nodup_rangeI _ _).map (fun y1 y2 h => congrArg Prod.snd h)
  · refine (nodup_rangeI _ _).imp ?_
    intro x1 x2 hne p hp1 hp2
    rw [List.mem_map] at hp1 hp2
    obtain ⟨y1, _, rfl⟩ := hp1
    obtain ⟨y2, _, heq⟩ := hp2
    rw [Prod.mk.injEq] at heq
    exact hne heq.1.symm

theorem mem_block_inner (a : AliveCell) (h : i32Inner a = true) (k : Cell) :
    k ∈ block a ↔ inBlock a k = true := by
  simp only [i32Inner, I32_MIN, I32_MAX, Bool.and_eq_true, decide_eq_true_eq] at h
  obtain ⟨⟨⟨hx1, hx2⟩, hy1⟩, hy2⟩ := h
  rw [mem_block_iff, wrap32_eq_self _ (by omega) (by omega),
    wrap32_eq_self _ (by omega) (by omega), wrap32_eq_self _ (by omega) (by omega),
    wrap32_eq_self _ (by omega) (by omega)]
  simp only [inBlock, Bool.and_eq_true, decide_eq_true_eq]
  omega

theorem block_eq_nil_of_extreme (a : AliveCell) (hval : i32Valid a = true)
    (h : ¬ i32Inner a = true) : block a = [] := by
  simp only [i32Valid, I32_MIN, I32_MAX, Bool.and_eq_true, decide_eq_true_eq] at hval
  simp only [i32Inner, I32_MIN, I32_MAX, Bool.and_eq_true, decide_eq_true_eq, not_and] at h
  rw [List.eq_nil_iff_forall_not_mem]
  intro k hk
  rw [mem_block_iff] at hk
  unfold wrap32 at hk
  omega

theorem adjacent8_self_iff (a : AliveCell) (k : Cell) :
    adjacent8 (a.x, a.y) k = true ↔ (inBlock a k = true ∧ ¬ k = (a.x, a.y)) := by
  obtain ⟨kx, ky⟩ := k
  simp only [adjacent8, inBlock, Bool.and_eq_true, decide_eq_true_eq, Prod.mk.injEq,
    Bool.not_eq_eq_eq_not, Bool.not_true, decide_eq_false_iff_not, not_and]
  omega

theorem contributesTo_eq_adjacent8_of_inner (a : AliveCell) (h : i32Inner a = true)
    (k : Cell) : contributesTo a k = adjacent8 (a.x, a.y) k := by
  rw [Bool.eq_iff_iff]
  simp only [contributesTo, Bool.and_eq_true, decide_eq_true_eq, Bool.not_eq_eq_eq_not,
    Bool.not_true, decide_eq_false_iff_not]
  rw [mem_block_inner a h k, adjacent8_self_iff]
  constructor
  · rintro ⟨h1, h2⟩
    exact ⟨h1, fun hc => h2 hc.symm⟩
  · rintro ⟨h1, h2⟩
    exact ⟨h1, fun hc => h2 hc.symm⟩

theorem contributesTo_eq_false_of_extreme (a : AliveCell) (hval : i32Valid a = true)
    (h : ¬ i32Inner a = true) (k : Cell) : contributesTo a k = false := by
  simp [contributesTo, block_eq_nil_of_extreme a hval h]

/-! ### Characterisation of the aggregation pass -/

theorem lookupVotes_aggregateCell (m : List (Cell × List Nat)) (a : AliveCell) (k : Cell) :
    lookupVotes (aggregateCell m a) k =
      lookupVotes m k ++ if contributesTo a k = true then [a.player_id] else [] := by
  unfold aggregateCell
  rw [lookupVotes_foldl_addVote _ _ (block_nodup a)]
  congr 1
  by_cases hb : k ∈ block a
  · rw [if_pos hb]
    by_cases hself : k = (a.x, a.y)
    · rw [if_pos hself, if_neg]
      · rfl
      · simp [contributesTo, hself]
    · have hself2 : ¬ (a.x, a.y) = k := fun hc => hself hc.symm
      rw [if_neg hself, if_pos]
      · rfl
      · simp [contributesTo, hb, hself2]
  · rw [if_neg hb, if_neg]
    simp [contributesTo, hb]

theorem mem_keysOf_aggregateCell (m : List (Cell × List Nat)) (a : AliveCell) (k : Cell) :
    k ∈ keysOf (aggregateCell m a) ↔ k ∈ keysOf m ∨ k ∈ block a := by
  unfold aggregateCell
  exact mem_keysOf_foldl_addVote _ _ _ _

theorem nodup_keysOf_aggregateCell (m : List (Cell × List Nat)) (a : AliveCell)
    (h : (keysOf m).Nodup) : (keysOf (aggregateCell m a)).Nodup :=
  nodup_keysOf_foldl_addVote _ _ _ h

theorem aggregate_append_singleton (cells : List AliveCell) (a : AliveCell) :
    aggregate (cells ++ [a]) = aggregateCell (aggregate cells) a := by
  simp [aggregate, List.foldl_append]

theorem pushedVotes_append_singleton (cells : List AliveCell) (a : AliveCell) (k : Cell) :
    pushedVotes (cells ++ [a]) k =
      pushedVotes cells k ++ if contributesTo a k = true then [a.player_id] else [] := by
  unfold pushedVotes
  rw [List.filter_append, List.map_append]
  congr 1
  by_cases h : contributesTo a k = true <;> simp [h]

theorem lookupVotes_aggregate (cells : List AliveCell) (k : Cell) :
    lookupVotes (aggregate cells) k = pushedVotes cells k := by
  induction cells using List.reverseRecOn with
  | nil => simp [aggregate, pushedVotes, lookupVotes]
  | append_singleton l a ih =>
    rw [aggregate_append_singleton, lookupVotes_aggregateCell,
      pushedVotes_append_singleton, ih]

theorem mem_keysOf_aggregate (cells : List AliveCell) (k : Cell) :
    k ∈ keysOf (aggregate cells) ↔ ∃ a ∈ cells, k ∈ block a := by
  induction cells using List.reverseRecOn with
  | nil => simp [aggregate, keysOf]
  | append_singleton l a ih =>
    rw [aggregate_append_singleton, mem_keysOf_aggregateCell, ih]
    simp only [List.mem_append, List.mem_singleton]
    constructor
    · rintro (⟨b, hb, hin⟩ | hin)
      · exact ⟨b, Or.inl hb, hin⟩
      · exact ⟨a, Or.inr rfl, hin⟩
    · rintro ⟨b, hb | rfl, hin⟩
      · exact Or.inl ⟨b, hb, hin⟩
      · exact Or.inr hin

theorem pushedVotes_eq_votesFor (cells : List AliveCell) (k : Cell)
    (hval : ∀ a ∈ cells, i32Valid a = true)
    (hnbr : ∀ a ∈ cells, adjacent8 (a.x, a.y) k = true → i32Inner a = true) :
    pushedVotes cells k = votesFor cells k := by
  unfold pushedVotes votesFor
  congr 1
  apply List.filter_congr
  intro a ha
  by_cases hi : i32Inner a = true
  · exact contributesTo_eq_adjacent8_of_inner a hi k
  · rw [contributesTo_eq_false_of_extreme a (hval a ha) hi]
    cases hA : adjacent8 (a.x, a.y) k with
    | false => rfl
    | true => exact absurd (hnbr a ha hA) hi

theorem nodup_keysOf_aggregate (cells : List AliveCell) :
    (keysOf (aggregate cells)).Nodup := by
  induction cells using List.reverseRecOn with
  | nil => simp [aggregate, keysOf]
  | append_singleton l a ih =>
    rw [aggregate_append_singleton]
    exact nodup_keysOf_aggregateCell _ _ ih

/-! ### Generic association-list facts -/

theorem lookupVotes_eq_nil_of_not_mem (m : List (Cell × List Nat)) (k : Cell)
    (h : ¬ k ∈ keysOf m) : lookupVotes m k = [] := by
  induction m with
  | nil => rfl
  | cons e rest ih =>
    simp only [keysOf, List.map_cons, List.mem_cons, not_or] at h
    simp only [lookupVotes, if_neg (fun hc : e.1 = k => h.1 hc.symm)]
    exact ih h.2

theorem mem_assoc_iff (m : List (Cell × List Nat)) (h : (keysOf m).Nodup) (k : Cell)
    (v : List Nat) : (k, v) ∈ m ↔ k ∈ keysOf m ∧ v = lookupVotes m k := by
  induction m with
  | nil => simp [keysOf]
  | cons e rest ih =>
    simp only [keysOf, List.map_cons, List.nodup_cons] at h
    obtain ⟨he, hrest⟩ := h
    simp only [List.mem_cons, keysOf, List.map_cons, lookupVotes]
    constructor
    · rintro (hev | hmem)
      · rw [← hev]
        simp
      · have hk : k ∈ keysOf rest := List.mem_map_of_mem Prod.fst hmem
        have hne : ¬ e.1 = k := fun hc => he (hc ▸ hk)
        rw [if_neg hne]
        exact ⟨Or.inr hk, ((ih hrest).mp hmem).2⟩
    · rintro ⟨hk | hk, hv⟩
      · rw [if_pos hk.symm] at hv
        left
        obtain ⟨e1, e2⟩ := e
        simp only at hk hv
        subst hk
        rw [hv]
      · have hne : ¬ e.1 = k := fun hc => he (hc ▸ hk)
        rw [if_neg hne] at hv
        exact Or.inr ((ih hrest).mpr ⟨hk, hv⟩)

theorem filter_key_of_mem (m : List (Cell × List Nat)) (h : (keysOf m).Nodup) (k : Cell)
    (hk : k ∈ keysOf m) :
    m.filter (fun e => decide (e.1 = k)) = [(k, lookupVotes m k)] := by
  induction m with
  | nil => simp [keysOf] at hk
  | cons e rest ih =>
    simp only [keysOf, List.map_cons, List.nodup_cons] at h
    obtain ⟨he, hrest⟩ := h
    simp only [keysOf, List.map_cons, List.mem_cons] at hk
    rcases hk with hk | hk
    · have he1 : e.1 = k := hk.symm
      have : rest.filter (fun e => decide (e.1 = k)) = [] := by
        rw [List.filter_eq_nil_iff]
        intro b hb
        simp only [decide_eq_true_eq]
        intro hc
        exact he (hk ▸ hc ▸ List.mem_map_of_mem Prod.fst hb)
      rw [List.filter_cons, if_pos (by simpa using he1), this, lookupVotes, if_pos he1]
      obtain ⟨e1, e2⟩ := e
      simp only at he1
      rw [he1]
    · have hne : ¬ e.1 = k := fun hc => he (hc ▸ hk)
      rw [List.filter_cons, if_neg (by simpa using hne), ih hrest hk, lookupVotes, if_neg hne]

theorem filter_key_of_not_mem (m : List (Cell × List Nat)) (k : Cell)
    (hk : ¬ k ∈ keysOf m) : m.filter (fun e => decide (e.1 = k)) = [] := by
  rw [List.filter_eq_nil_iff]
  intro e he
  simp only [decide_eq_true_eq]
  intro hc
  exact hk (hc ▸ List.mem_map_of_mem Prod.fst he)

/-! ### One evaluation step is a point filter plus a point birth -/

theorem keysOf_cons (e : Cell × List Nat) (m : List (Cell × List Nat)) :
    keysOf (e :: m) = e.1 :: keysOf m := rfl

theorem bornCell_coord (sigma : List (Nat × Nat) → List (Nat × Nat)) (e : Cell × List Nat) :
    ((bornCell sigma e).x, (bornCell sigma e).y) = e.1 := by
  simp [bornCell]

theorem killedBy_of_coord_ne (e : Cell × List Nat) (b : AliveCell)
    (h : ¬ (b.x, b.y) = e.1) : killedBy e b = false := by
  simp [killedBy, h]

theorem isAliveIn_append (l1 l2 : List AliveCell) (k : Cell) :
    isAliveIn (l1 ++ l2) k = (isAliveIn l1 k || isAliveIn l2 k) := by
  simp [isAliveIn, List.any_append]

theorem isAliveIn_birthsOf_ne (sigma : List (Nat × Nat) → List (Nat × Nat))
    (db : List AliveCell) (e : Cell × List Nat) (k' : Cell) (h : ¬ e.1 = k') :
    isAliveIn (birthsOf sigma db e) k' = false := by
  unfold birthsOf
  split
  · simp only [isAliveIn, List.any_cons, List.any_nil, Bool.or_false]
    rw [bornCell_coord]
    simp [h]
  · rfl

theorem isAliveIn_filter_killedBy (e : Cell × List Nat) (db : List AliveCell) (k' : Cell)
    (h : ¬ k' = e.1) :
    isAliveIn (db.filter (fun a => !killedBy e a)) k' = isAliveIn db k' := by
  induction db with
  | nil => rfl
  | cons a rest ih =>
    rw [List.filter_cons]
    by_cases hc : (a.x, a.y) = k'
    · have hk : killedBy e a = false := killedBy_of_coord_ne _ _ (by rw [hc]; exact h)
      rw [hk]
      simp [isAliveIn, hc]
    · by_cases hk : killedBy e a = true
      · rw [hk]
        simp only [Bool.not_true, Bool.false_eq_true, if_false]
        rw [ih]
        simp [isAliveIn, List.any_cons, hc]
      · rw [Bool.not_eq_true] at hk
        rw [hk]
        simp only [Bool.not_false, if_true]
        simp [isAliveIn, List.any_cons, hc] at ih ⊢
        exact ih

theorem filter_killedBy_of_flag_true (e : Cell × List Nat) (db : List AliveCell)
    (h : (outOfBounds e.1 || (e.2.length != 2 && e.2.length != 3)) = true) :
    db.filter (fun a => !killedBy e a) = deleteAt db e.1 := by
  unfold deleteAt
  apply List.filter_congr
  intro a _
  simp only [killedBy, h, Bool.and_true]

theorem filter_killedBy_of_flag_false (e : Cell × List Nat) (db : List AliveCell)
    (h : (outOfBounds e.1 || (e.2.length != 2 && e.2.length != 3)) = false) :
    db.filter (fun a => !killedBy e a) = db := by
  rw [List.filter_eq_self]
  intro a _
  simp [killedBy, h]

theorem deleteAt_idem (db : List AliveCell) (k : Cell) :
    deleteAt (deleteAt db k) k = deleteAt db k := by
  simp [deleteAt, List.filter_filter]

theorem deleteAt_of_dead (db : List AliveCell) (k : Cell) (h : isAliveIn db k = false) :
    deleteAt db k = db := by
  rw [deleteAt, List.filter_eq_self]
  intro a ha
  simp only [isAliveIn, List.any_eq_false] at h
  simp [h a ha]

theorem evalStep_eq (sigma : List (Nat × Nat) → List (Nat × Nat)) (db : List AliveCell)
    (e : Cell × List Nat) :
    evalStep sigma db e = db.filter (fun a => !killedBy e a) ++ birthsOf sigma db e := by
  by_cases hA : isAliveIn db e.1 = true
  · have hnb : bornAt db e = false := by simp [bornAt, hA]
    by_cases h3 : e.2.length = 3
    · by_cases hO : outOfBounds e.1 = true
      · rw [filter_killedBy_of_flag_true _ _ (by simp [hO])]
        simp [evalStep, birthsOf, hA, hO, h3, hnb]
      · have hO' : outOfBounds e.1 = false := by simpa using hO
        rw [filter_killedBy_of_flag_false _ _ (by simp [hO', h3])]
        simp [evalStep, birthsOf, hA, hO', h3, hnb]
    · by_cases h2 : e.2.length = 2
      · by_cases hO : outOfBounds e.1 = true
        · rw [filter_killedBy_of_flag_true _ _ (by simp [hO])]
          simp [evalStep, birthsOf, hA, hO, h2, h3, hnb]
        · have hO' : outOfBounds e.1 = false := by simpa using hO
          rw [filter_killedBy_of_flag_false _ _ (by simp [hO', h2])]
          simp [evalStep, birthsOf, hA, hO', h2, h3, hnb]
      · rw [filter_killedBy_of_flag_true _ _ (by simp [bne_iff_ne, h2, h3])]
        by_cases hO : outOfBounds e.1 = true
        · simp [evalStep, birthsOf, hA, hO, h2, h3, hnb, deleteAt_idem]
        · have hO' : outOfBounds e.1 = false := by simpa using hO
          simp [evalStep, birthsOf, hA, hO', h2, h3, hnb]
  · have hA' : isAliveIn db e.1 = false := by simpa using hA
    by_cases h3 : e.2.length = 3
    · have hb : bornAt db e = true := by simp [bornAt, hA', h3]
      have hflag : db.filter (fun a => !killedBy e a) = db := by
        by_cases hO : outOfBounds e.1 = true
        · rw [filter_killedBy_of_flag_true _ _ (by simp [hO])]
          exact deleteAt_of_dead _ _ hA'
        · have hO' : outOfBounds e.1 = false := by simpa using hO
          exact filter_killedBy_of_flag_false _ _ (by simp [hO', h3])
      rw [hflag]
      simp [evalStep, birthsOf, bornCell, hA', h3, hb]
    · have hnb : bornAt db e = false := by simp [bornAt, h3]
      have hflag : db.filter (fun a => !killedBy e a) = db := by
        by_cases hO : outOfBounds e.1 = true
        · rw [filter_killedBy_of_flag_true _ _ (by simp [hO])]
          exact deleteAt_of_dead _ _ hA'
        · have hO' : outOfBounds e.1 = false := by simpa using hO
          by_cases h2 : e.2.length = 2
          · exact filter_killedBy_of_flag_false _ _ (by simp [hO', h2])
          · rw [filter_killedBy_of_flag_true _ _ (by simp [bne_iff_ne, h2, h3])]
            exact deleteAt_of_dead _ _ hA'
      rw [hflag]
      simp [evalStep, birthsOf, hA', h3, hnb]

/-! ### The tick is a pure batch over the tick-start snapshot -/

theorem tickRun_eq_tickBatch (sigma : List (Nat × Nat) → List (Nat × Nat))
    (db0 : List AliveCell) (cands : List (Cell × List Nat))
    (hkeys : (keysOf cands).Nodup) :
    tickRun sigma db0 cands = tickBatch sigma db0 cands := by
  induction cands generalizing db0 with
  | nil => simp [tickRun, tickBatch]
  | cons e rest ih =>
    rw [keysOf_cons, List.nodup_cons] at hkeys
    obtain ⟨hnotin, hrest⟩ := hkeys
    show tickRun sigma (evalStep sigma db0 e) rest = _
    rw [ih _ hrest, evalStep_eq]
    unfold tickBatch
    rw [List.filter_append, List.filter_filter]
    have hne : ∀ e' ∈ rest, ¬ e.1 = e'.1 := by
      intro e' he' hc
      exact hnotin (hc ▸ List.mem_map_of_mem Prod.fst he')
    have hbsurv : (birthsOf sigma db0 e).filter
        (fun a => !rest.any (fun e' => killedBy e' a)) = birthsOf sigma db0 e := by
      rw [List.filter_eq_self]
      intro b hb
      have hcoord : (b.x, b.y) = e.1 := by
        unfold birthsOf at hb
        split at hb
        · simp only [List.mem_singleton] at hb
          rw [hb]
          exact bornCell_coord sigma e
        · simp at hb
      rw [Bool.not_eq_true', List.any_eq_false]
      intro e' he'
      have hkb : killedBy e' b = false :=
        killedBy_of_coord_ne e' b (fun hc => hne e' he' (hcoord.symm.trans hc))
      simp [hkb]
    have hborn : rest.filter
        (bornAt (db0.filter (fun a => !killedBy e a) ++ birthsOf sigma db0 e)) =
        rest.filter (bornAt db0) := by
      apply List.filter_congr
      intro e' he'
      unfold bornAt
      rw [isAliveIn_append, isAliveIn_filter_killedBy _ _ _ (fun hc => hne e' he' hc.symm),
        isAliveIn_birthsOf_ne _ _ _ _ (hne e' he'), Bool.or_false]
    have hfuse : db0.filter (fun a => !rest.any (fun e' => killedBy e' a) && !killedBy e a) =
        db0.filter (fun a => !(e :: rest).any (fun e' => killedBy e' a)) := by
      apply List.filter_congr
      intro a _
      rw [List.any_cons, Bool.not_or, Bool.and_comm]
    rw [hbsurv, hborn, hfuse, List.filter_cons]
    by_cases hb : bornAt db0 e = true
    · rw [if_pos hb]
      unfold birthsOf
      rw [if_pos hb]
      simp [List.append_assoc]
    · rw [if_neg hb]
      unfold birthsOf
      rw [if_neg hb]
      simp

theorem isAliveIn_evalStep_ne (sigma : List (Nat × Nat) → List (Nat × Nat))
    (db : List AliveCell) (e : Cell × List Nat) (k' : Cell) (h : ¬ k' = e.1) :
    isAliveIn (evalStep sigma db e) k' = isAliveIn db k' := by
  rw [evalStep_eq, isAliveIn_append, isAliveIn_filter_killedBy _ _ _ h,
    isAliveIn_birthsOf_ne _ _ _ _ (fun hc => h hc.symm), Bool.or_false]

theorem tickRunTrace_fst (sigma : List (Nat × Nat) → List (Nat × Nat))
    (db : List AliveCell) (cands : List (Cell × List Nat)) :
    (tickRunTrace sigma db cands).1 = tickRun sigma db cands := by
  induction cands generalizing db with
  | nil => rfl
  | cons e rest ih => simp [tickRunTrace, tickRun, ih]

theorem tickRunTrace_keys (sigma : List (Nat × Nat) → List (Nat × Nat))
    (db : List AliveCell) (cands : List (Cell × List Nat)) :
    (tickRunTrace sigma db cands).2.map Prod.fst = keysOf cands := by
  induction cands generalizing db with
  | nil => rfl
  | cons e rest ih => simp [tickRunTrace, keysOf_cons, keysOf, ih]

theorem tickRunTrace_snapshot (sigma : List (Nat × Nat) → List (Nat × Nat))
    (db0 : List AliveCell) (cands : List (Cell × List Nat))
    (hkeys : (keysOf cands).Nodup) :
    ∀ x ∈ (tickRunTrace sigma db0 cands).2, x.2 = isAliveIn db0 x.1 := by
  induction cands generalizing db0 with
  | nil =>
    intro x hx
    simp [tickRunTrace] at hx
  | cons e rest ih =>
    rw [keysOf_cons, List.nodup_cons] at hkeys
    obtain ⟨hnotin, hrest⟩ := hkeys
    intro x hx
    simp only [tickRunTrace, List.mem_cons] at hx
    rcases hx with rfl | hx
    · rfl
    · have h1 := ih (evalStep sigma db0 e) hrest x hx
      have hxkey : x.1 ∈ keysOf rest := by
        rw [← tickRunTrace_keys sigma (evalStep sigma db0 e) rest]
        exact List.mem_map_of_mem Prod.fst hx
      have hne : ¬ x.1 = e.1 := fun hc => hnotin (hc ▸ hxkey)
      rw [h1, isAliveIn_evalStep_ne _ _ _ _ hne]

theorem perm_any_eq {α : Type} {l l' : List α} (h : l.Perm l') (p : α → Bool) :
    l.any p = l'.any p := by
  cases hb : l'.any p with
  | false =>
    rw [List.any_eq_false] at hb ⊢
    intro a ha
    exact hb a (h.mem_iff.mp ha)
  | true =>
    rw [List.any_eq_true] at hb ⊢
    obtain ⟨a, ha, hp⟩ := hb
    exact ⟨a, h.mem_iff.mpr ha, hp⟩

theorem tickBatch_perm_cands (sigma : List (Nat × Nat) → List (Nat × Nat))
    (db0 : List AliveCell) {cands cands' : List (Cell × List Nat)}
    (h : cands.Perm cands') :
    (tickBatch sigma db0 cands).Perm (tickBatch sigma db0 cands') := by
  unfold tickBatch
  refine List.Perm.append ?_ ((h.filter _).map _)
  have heq : db0.filter (fun a => !cands.any (fun e => killedBy e a)) =
      db0.filter (fun a => !cands'.any (fun e => killedBy e a)) := by
    apply List.filter_congr
    intro a _
    rw [perm_any_eq h]
  rw [heq]

theorem tickRun_perm_batch_aggregate (sigma : List (Nat × Nat) → List (Nat × Nat))
    (db0 : List AliveCell) {cands : List (Cell × List Nat)}
    (h : cands.Perm (aggregate db0)) :
    (tickRun sigma db0 cands).Perm (tickBatch sigma db0 (aggregate db0)) := by
  have hkeys : (keysOf cands).Nodup :=
    (h.map Prod.fst).nodup_iff.mpr (nodup_keysOf_aggregate db0)
  rw [tickRun_eq_tickBatch _ _ _ hkeys]
  exact tickBatch_perm_cands _ _ h

/-- C1: for a starting alive-cell table with at most one row per coordinate
and the candidate map enumerated in any order (each coordinate once, as a
`HashMap` yields it), the tick behaves as a pure function of the tick-start
snapshot: every per-candidate `is_alive` value read during the evaluation
loop equals that cell's aliveness at tick start, and the final table equals
the batch application of the per-candidate cull/birth/death decisions
computed against that single snapshot. -/
theorem tick_is_pure_snapshot_batch (sigma : List (Nat × Nat) → List (Nat × Nat))
    (db0 : List AliveCell) (cands : List (Cell × List Nat))
    (_hrows : (db0.map (fun a => (a.x, a.y))).Nodup)
    (hcands : cands.Perm (aggregate db0)) :
    (∀ x ∈ (tickRunTrace sigma db0 cands).2, x.2 = isAliveIn db0 x.1) ∧
      tickRun sigma db0 cands = tickBatch sigma db0 cands := by
  have hkeys : (keysOf cands).Nodup :=
    (hcands.map Prod.fst).nodup_iff.mpr (nodup_keysOf_aggregate db0)
  exact ⟨tickRunTrace_snapshot _ _ _ hkeys, tickRun_eq_tickBatch _ _ _ hkeys⟩

/-- C1 witness: the snapshot-purity theorem applied to the horizontal
blinker with the canonical candidate order. -/
theorem tick_is_pure_snapshot_batch_witness :
    (((blinkerRow 7).map (fun a => (a.x, a.y))).Nodup ∧
      (aggregate (blinkerRow 7)).Perm (aggregate (blinkerRow 7))) ∧
      tickRun id (blinkerRow 7) (aggregate (blinkerRow 7)) =
        tickBatch id (blinkerRow 7) (aggregate (blinkerRow 7)) :=
  ⟨⟨by decide, List.Perm.refl _⟩,
    (tick_is_pure_snapshot_batch id (blinkerRow 7) (aggregate (blinkerRow 7))
      (by decide) (List.Perm.refl _)).2⟩

/-- C10: the `tick` reducer mutates only the alive-cells table: the Players
table, the Config row and the TickSchedule row are identical before and
after any tick invocation. -/
theorem tick_touches_only_alive_cells (sigma : List (Nat × Nat) → List (Nat × Nat))
    (s : DbState) (cands : List (Cell × List Nat)) :
    (tick sigma s cands).players = s.players ∧
      (tick sigma s cands).config = s.config ∧
      (tick sigma s cands).tick_schedule = s.tick_schedule :=
  ⟨rfl, rfl, rfl⟩

/-! ### Enumerating permutations of short lists -/

theorem perm_pair_cases {α : Type} {l : List α} {a b : α} (h : l.Perm [a, b]) :
    l = [a, b] ∨ l = [b, a] := by
  have hlen : l.length = 2 := h.length_eq
  obtain ⟨x, y, rfl⟩ : ∃ x y, l = [x, y] := by
    match l, hlen with
    | [x, y], _ => exact ⟨x, y, rfl⟩
  have hx : x ∈ ([a, b] : List α) := h.mem_iff.mp (by simp)
  rcases List.mem_cons.mp hx with rfl | hx2
  · left
    have h2 := h.cons_inv
    rw [List.perm_singleton] at h2
    injection h2 with h3 h4
    rw [h3]
  · simp only [List.mem_singleton] at hx2
    subst hx2
    right
    have h2 : ([y] : List α).Perm [a] := (h.trans (List.Perm.swap _ _ _)).cons_inv
    rw [List.perm_singleton] at h2
    injection h2 with h3 h4
    rw [h3]

theorem perm_triple_cases {α : Type} {l : List α} {a b c : α} (h : l.Perm [a, b, c]) :
    l = [a, b, c] ∨ l = [a, c, b] ∨ l = [b, a, c] ∨ l = [b, c, a] ∨
      l = [c, a, b] ∨ l = [c, b, a] := by
  have hlen : l.length = 3 := h.length_eq
  obtain ⟨x, rest, rfl⟩ : ∃ x rest, l = x :: rest := by
    match l, hlen with
    | x :: rest, _ => exact ⟨x, rest, rfl⟩
  have hx : x ∈ ([a, b, c] : List α) := h.mem_iff.mp (by simp)
  rcases List.mem_cons.mp hx with rfl | hx2
  · rcases perm_pair_cases h.cons_inv with h3 | h3
    · left
      rw [h3]
    · right
      left
      rw [h3]
  · rcases List.mem_cons.mp hx2 with rfl | hx3
    · have h2 : rest.Perm [a, c] := (h.trans (List.Perm.swap _ _ _)).cons_inv
      rcases perm_pair_cases h2 with h3 | h3
      · right
        right
        left
        rw [h3]
      · right
        right
        right
        left
        rw [h3]
    · simp only [List.mem_singleton] at hx3
      subst hx3
      have hac : ([a, b, x] : List α).Perm (x :: [a, b]) := by
        have h4 : (([a, b] : List α) ++ [x]).Perm ([x] ++ [a, b]) := List.perm_append_comm
        simpa using h4
      have h2 : rest.Perm [a, b] := (h.trans hac).cons_inv
      rcases perm_pair_cases h2 with h3 | h3
      · right
        right
        right
        right
        left
        rw [h3]
      · right
        right
        right
        right
        right
        rw [h3]

/-! ### The blinker oscillates with period 2 -/

theorem buildCounts_three_same (P : Nat) : buildCounts [P, P, P] = [(P, 3)] := by
  simp [buildCounts, bumpCount]

theorem bornCell_three_same (sigma : List (Nat × Nat) → List (Nat × Nat))
    (hsig : ∀ l, (sigma l).Perm l) (k : Cell) (P : Nat) :
    bornCell sigma (k, [P, P, P]) = ⟨k.1, k.2, P⟩ := by
  unfold bornCell
  rw [show buildCounts [P, P, P] = [(P, 3)] from buildCounts_three_same P,
    List.perm_singleton.mp (hsig _)]
  rfl

theorem blinkerRow_tick (P : Nat) (sigma : List (Nat × Nat) → List (Nat × Nat))
    (db0 : List AliveCell) (cands : List (Cell × List Nat))
    (hsig : ∀ l, (sigma l).Perm l) (hdb : db0.Perm (blinkerRow P))
    (hcands : cands.Perm (aggregate db0)) :
    (tickRun sigma db0 cands).Perm (blinkerCol P) := by
  have h1 := tickRun_perm_batch_aggregate sigma db0 hcands
  refine h1.trans ?_
  have hb1 : bornCell sigma ((1, -1), [P, P, P]) = ⟨1, -1, P⟩ := bornCell_three_same sigma hsig _ P
  have hb2 : bornCell sigma ((1, 1), [P, P, P]) = ⟨1, 1, P⟩ := bornCell_three_same sigma hsig _ P
  unfold blinkerRow at hdb
  rcases perm_triple_cases hdb with h | h | h | h | h | h <;>
    subst h <;>
    simp [tickBatch, aggregate, aggregateCell, block, rangeI, wrap32, rangeFrom_three,
      addVote, killedBy, bornAt, isAliveIn, outOfBounds, MIN_X, MIN_Y, MAX_X, MAX_Y,
      MARGIN, hb1, hb2, blinkerCol, -Prod.mk_zero_zero, -Prod.mk_one_one] <;>
    exact List.Perm.swap _ _ _

theorem blinkerCol_tick (P : Nat) (sigma : List (Nat × Nat) → List (Nat × Nat))
    (db0 : List AliveCell) (cands : List (Cell × List Nat))
    (hsig : ∀ l, (sigma l).Perm l) (hdb : db0.Perm (blinkerCol P))
    (hcands : cands.Perm (aggregate db0)) :
    (tickRun sigma db0 cands).Perm (blinkerRow P) := by
  have h1 := tickRun_perm_batch_aggregate sigma db0 hcands
  refine h1.trans ?_
  have hb1 : bornCell sigma ((0, 0), [P, P, P]) = ⟨0, 0, P⟩ := bornCell_three_same sigma hsig _ P
  have hb2 : bornCell sigma ((2, 0), [P, P, P]) = ⟨2, 0, P⟩ := bornCell_three_same sigma hsig _ P
  unfold blinkerCol at hdb
  rcases perm_triple_cases hdb with h | h | h | h | h | h <;>
    subst h <;>
    simp [tickBatch, aggregate, aggregateCell, block, rangeI, wrap32, rangeFrom_three,
      addVote, killedBy, bornAt, isAliveIn, outOfBounds, MIN_X, MIN_Y, MAX_X, MAX_Y,
      MARGIN, hb1, hb2, blinkerRow, -Prod.mk_zero_zero, -Prod.mk_one_one] <;>
    exact List.Perm.swap _ _ _

/-- C2: starting from the three alive cells `(0,0)`, `(1,0)`, `(2,0)` all
owned by player `P` (enumerated in any snapshot order, with any candidate
and counts iteration orders), one tick yields exactly the alive cells
`(1,-1)`, `(1,0)`, `(1,1)` each owned by `P`, and a second tick on that
result yields exactly the original three cells again, each owned by `P`. -/
theorem blinker_period_two (P : Nat) (sigma1 sigma2 : List (Nat × Nat) → List (Nat × Nat))
    (db0 : List AliveCell) (cands1 cands2 : List (Cell × List Nat))
    (hs1 : ∀ l, (sigma1 l).Perm l) (hs2 : ∀ l, (sigma2 l).Perm l)
    (hdb : db0.Perm (blinkerRow P))
    (hc1 : cands1.Perm (aggregate db0))
    (hc2 : cands2.Perm (aggregate (tickRun sigma1 db0 cands1))) :
    (tickRun sigma1 db0 cands1).Perm (blinkerCol P) ∧
      (tickRun sigma2 (tickRun sigma1 db0 cands1) cands2).Perm (blinkerRow P) := by
  have g1 := blinkerRow_tick P sigma1 db0 cands1 hs1 hdb hc1
  exact ⟨g1, blinkerCol_tick P sigma2 _ cands2 hs2 g1 hc2⟩

/-- C2 witness: both generations of the blinker for player 7, with the
canonical snapshot, candidate and counts orders. -/
theorem blinker_period_two_witness :
    (tickRun id (blinkerRow 7) (aggregate (blinkerRow 7))).Perm (blinkerCol 7) ∧
      (tickRun id (tickRun id (blinkerRow 7) (aggregate (blinkerRow 7)))
          (aggregate (tickRun id (blinkerRow 7) (aggregate (blinkerRow 7))))).Perm
        (blinkerRow 7) :=
  blinker_period_two 7 id id (blinkerRow 7) (aggregate (blinkerRow 7))
    (aggregate (tickRun id (blinkerRow 7) (aggregate (blinkerRow 7))))
    (fun l => List.Perm.refl l) (fun l => List.Perm.refl l)
    (List.Perm.refl _) (List.Perm.refl _) (List.Perm.refl _)

/-! ### Boundary cull -/

theorem inBlock_self (a : AliveCell) : inBlock a (a.x, a.y) = true := by
  simp only [inBlock, Bool.and_eq_true, decide_eq_true_eq]
  omega

theorem isAliveIn_of_mem (db : List AliveCell) (a : AliveCell) (ha : a ∈ db) :
    isAliveIn db (a.x, a.y) = true := by
  rw [isAliveIn, List.any_eq_true]
  exact ⟨a, ha, by simp⟩

theorem key_mem_cands_of_alive {db0 : List AliveCell} {cands : List (Cell × List Nat)}
    (h : cands.Perm (aggregate db0)) {a : AliveCell} (ha : a ∈ db0)
    (hin : i32Inner a = true) :
    ∃ v, ((a.x, a.y), v) ∈ cands := by
  have hk : (a.x, a.y) ∈ keysOf (aggregate db0) :=
    (mem_keysOf_aggregate db0 _).mpr
      ⟨a, ha, (mem_block_inner a hin _).mpr (inBlock_self a)⟩
  have hk2 : (a.x, a.y) ∈ keysOf cands := (h.map Prod.fst).mem_iff.mpr hk
  rw [keysOf, List.mem_map] at hk2
  obtain ⟨e, he, heq⟩ := hk2
  refine ⟨e.2, ?_⟩
  rw [← heq]
  simpa using he

/-- C3 counterexample: the lone alive cell `(2147483647, 0)` lies outside
the culling rectangle, yet it is still alive after one tick — its
aggregation loops wrap to empty `i32` ranges, so it never becomes a
candidate and is never evaluated.  The claim as stated (every out-of-bounds
alive cell is absent after one tick) is false of the program. -/
theorem boundary_cull_misses_extreme_cell :
    (⟨2147483647, 0, 1⟩ : AliveCell) ∈ boundaryDb ∧
      outOfBounds (2147483647, 0) = true ∧
      aggregate boundaryDb = [] ∧
      isAliveIn (tickRun id boundaryDb (aggregate boundaryDb)) (2147483647, 0) = true :=
  ⟨by decide, by decide, by decide, by decide⟩

/-- C3 amended: an alive cell whose coordinate lies outside the culling
rectangle `[-5,197] x [-5,113]` at tick start *and* lies strictly inside
the `i32` extremes (so its own 3x3 aggregation loops do not wrap empty) is
absent after one tick, whatever its live-neighbour count (in particular
when it is exactly 2, where the rule alone would mean survival): the
boundary cull takes precedence. -/
theorem boundary_cull_overrides_survival (sigma : List (Nat × Nat) → List (Nat × Nat))
    (db0 : List AliveCell) (cands : List (Cell × List Nat)) (a : AliveCell)
    (hcands : cands.Perm (aggregate db0)) (ha : a ∈ db0)
    (hin : i32Inner a = true)
    (hoob : outOfBounds (a.x, a.y) = true) :
    isAliveIn (tickRun sigma db0 cands) (a.x, a.y) = false := by
  have hkeys : (keysOf cands).Nodup :=
    (hcands.map Prod.fst).nodup_iff.mpr (nodup_keysOf_aggregate db0)
  rw [tickRun_eq_tickBatch _ _ _ hkeys]
  unfold tickBatch
  rw [isAliveIn_append]
  obtain ⟨v, hv⟩ := key_mem_cands_of_alive hcands ha hin
  have h1 : isAliveIn (db0.filter (fun b => !cands.any (fun e => killedBy e b)))
      (a.x, a.y) = false := by
    rw [isAliveIn, List.any_eq_false]
    intro b hb
    rw [List.mem_filter] at hb
    obtain ⟨hbdb, hbp⟩ := hb
    by_cases hcoord : (b.x, b.y) = (a.x, a.y)
    · exfalso
      rw [Bool.not_eq_true', List.any_eq_false] at hbp
      have hkb := hbp _ hv
      rw [killedBy] at hkb
      simp [hcoord, hoob] at hkb
    · simp [hcoord]
  have h2 : isAliveIn ((cands.filter (bornAt db0)).map (bornCell sigma))
      (a.x, a.y) = false := by
    rw [isAliveIn, List.any_eq_false]
    intro b hb
    rw [List.mem_map] at hb
    obtain ⟨e, he, rfl⟩ := hb
    rw [List.mem_filter] at he
    obtain ⟨hec, heb⟩ := he
    rw [bornCell_coord sigma e]
    by_cases hce : e.1 = (a.x, a.y)
    · exfalso
      unfold bornAt at heb
      rw [hce, isAliveIn_of_mem db0 a ha] at heb
      simp at heb
    · simp [hce]
  rw [h1, h2]
  rfl

/-- C3 witness: the alive cell `(198, 0)` (just past the `x`-boundary 197,
far from the `i32` extremes) with exactly 2 live neighbours is removed by
one tick. -/
theorem boundary_cull_overrides_survival_witness :
    ((aggregate cullDb).Perm (aggregate cullDb) ∧ (⟨198, 0, 1⟩ : AliveCell) ∈ cullDb ∧
        i32Inner ⟨198, 0, 1⟩ = true ∧
        outOfBounds (198, 0) = true ∧ votesFor cullDb (198, 0) = [1, 1]) ∧
      isAliveIn (tickRun id cullDb (aggregate cullDb)) (198, 0) = false :=
  ⟨⟨List.Perm.refl _, by decide, by decide, by decide, by decide⟩,
    boundary_cull_overrides_survival id cullDb (aggregate cullDb) ⟨198, 0, 1⟩
      (List.Perm.refl _) (by decide) (by decide) (by decide)⟩

/-! ### The counts map -/

theorem lookupCount_bumpCount (m : List (Nat × Nat)) (p q : Nat) :
    lookupCount (bumpCount m p) q =
      if q = p then lookupCount m p + 1 else lookupCount m q := by
  induction m with
  | nil =>
    by_cases h : q = p
    · subst h
      simp [bumpCount, lookupCount]
    · have h2 : ¬ p = q := fun hc => h hc.symm
      simp [bumpCount, lookupCount, h, h2]
  | cons e rest ih =>
    by_cases he : e.1 = p
    · subst he
      by_cases h : q = e.1
      · subst h
        simp [bumpCount, lookupCount]
      · have h2 : ¬ e.1 = q := fun hc => h hc.symm
        simp [bumpCount, lookupCount, h, h2]
    · by_cases h : q = p
      · subst h
        have h2 : ¬ e.1 = q := he
        simp [bumpCount, lookupCount, he, h2, ih]
      · by_cases h2 : e.1 = q
        · simp [bumpCount, lookupCount, he, h2, h]
        · simp [bumpCount, lookupCount, he, h2, h, ih]

theorem keys_bumpCount (m : List (Nat × Nat)) (p : Nat) :
    (bumpCount m p).map Prod.fst =
      if p ∈ m.map Prod.fst then m.map Prod.fst else m.map Prod.fst ++ [p] := by
  induction m with
  | nil => simp [bumpCount]
  | cons e rest ih =>
    by_cases he : e.1 = p
    · simp [bumpCount, he]
    · simp only [bumpCount, if_neg he, List.map_cons] at ih ⊢
      rw [ih]
      have h2 : ¬ p = e.1 := fun hc => he hc.symm
      by_cases hk : p ∈ rest.map Prod.fst
      · simp [hk, h2]
      · simp [hk, h2]

theorem mem_keys_bumpCount (m : List (Nat × Nat)) (p q : Nat) :
    q ∈ (bumpCount m p).map Prod.fst ↔ q ∈ m.map Prod.fst ∨ q = p := by
  rw [keys_bumpCount]
  by_cases hk : p ∈ m.map Prod.fst
  · rw [if_pos hk]
    constructor
    · intro h
      exact Or.inl h
    · intro h
      rcases h with h | h
      · exact h
      · rw [h]
        exact hk
  · rw [if_neg hk]
    simp [List.mem_append]

theorem nodup_keys_bumpCount (m : List (Nat × Nat)) (p : Nat)
    (h : (m.map Prod.fst).Nodup) : ((bumpCount m p).map Prod.fst).Nodup := by
  rw [keys_bumpCount]
  by_cases hk : p ∈ m.map Prod.fst
  · rwa [if_pos hk]
  · rw [if_neg hk]
    refine List.Nodup.append h (List.nodup_singleton p) ?_
    intro x hx hx2
    simp only [List.mem_singleton] at hx2
    subst hx2
    exact hk hx

theorem buildCounts_append_singleton (votes : List Nat) (p : Nat) :
    buildCounts (votes ++ [p]) = bumpCount (buildCounts votes) p := by
  simp [buildCounts, List.foldl_append]

theorem lookupCount_buildCounts (votes : List Nat) (q : Nat) :
    lookupCount (buildCounts votes) q = votes.count q := by
  induction votes using List.reverseRecOn with
  | nil => rfl
  | append_singleton l p ih =>
    rw [buildCounts_append_singleton, lookupCount_bumpCount, List.count_append]
    by_cases h : q = p
    · subst h
      simp [ih]
    · have h2 : ¬ p = q := fun hc => h hc.symm
      simp [ih, h, h2]

theorem mem_keys_buildCounts (votes : List Nat) (q : Nat) :
    q ∈ (buildCounts votes).map Prod.fst ↔ q ∈ votes := by
  induction votes using List.reverseRecOn with
  | nil => simp [buildCounts]
  | append_singleton l p ih =>
    rw [buildCounts_append_singleton, mem_keys_bumpCount, ih]
    simp [List.mem_append]

theorem nodup_keys_buildCounts (votes : List Nat) :
    ((buildCounts votes).map Prod.fst).Nodup := by
  induction votes using List.reverseRecOn with
  | nil => simp [buildCounts]
  | append_singleton l p ih =>
    rw [buildCounts_append_singleton]
    exact nodup_keys_bumpCount _ _ ih

theorem mem_countAssoc_iff (m : List (Nat × Nat)) (hm : (m.map Prod.fst).Nodup)
    (p c : Nat) : (p, c) ∈ m ↔ p ∈ m.map Prod.fst ∧ c = lookupCount m p := by
  induction m with
  | nil => simp
  | cons e rest ih =>
    simp only [List.map_cons, List.nodup_cons] at hm
    obtain ⟨he, hrest⟩ := hm
    simp only [List.mem_cons, List.map_cons, lookupCount]
    constructor
    · rintro (hev | hmem)
      · rw [← hev]
        simp
      · have hk : p ∈ rest.map Prod.fst := List.mem_map_of_mem Prod.fst hmem
        have hne : ¬ e.1 = p := fun hc => he (hc ▸ hk)
        rw [if_neg hne]
        exact ⟨Or.inr hk, ((ih hrest).mp hmem).2⟩
    · rintro ⟨hk | hk, hv⟩
      · rw [if_pos hk.symm] at hv
        left
        obtain ⟨e1, e2⟩ := e
        simp only at hk hv
        subst hk
        rw [hv]
      · have hne : ¬ e.1 = p := fun hc => he (hc ▸ hk)
        rw [if_neg hne] at hv
        exact Or.inr ((ih hrest).mpr ⟨hk, hv⟩)

theorem mem_buildCounts_iff (votes : List Nat) (p c : Nat) :
    (p, c) ∈ buildCounts votes ↔ p ∈ votes ∧ c = votes.count p := by
  rw [mem_countAssoc_iff _ (nodup_keys_buildCounts votes), mem_keys_buildCounts,
    lookupCount_buildCounts]

theorem buildCounts_perm_two_one (votes : List Nat) (A B : Nat)
    (hv : votes.Perm [A, A, B]) (hAB : A ≠ B) :
    (buildCounts votes).Perm [(A, 2), (B, 1)] := by
  have hBA : B ≠ A := fun hc => hAB hc.symm
  have hn1 : (buildCounts votes).Nodup := (nodup_keys_buildCounts votes).of_map
  have hn2 : ([(A, 2), (B, 1)] : List (Nat × Nat)).Nodup := by
    simp [hAB]
  rw [List.perm_ext_iff_of_nodup hn1 hn2]
  intro x
  obtain ⟨p, c⟩ := x
  rw [mem_buildCounts_iff, hv.mem_iff, hv.count_eq p]
  have hcA : ([A, A, B] : List Nat).count A = 2 := by
    simp [List.count_cons, hBA]
  have hcB : ([A, A, B] : List Nat).count B = 1 := by
    simp [List.count_cons, hAB, hBA]
  constructor
  · rintro ⟨hp, rfl⟩
    simp only [List.mem_cons, List.not_mem_nil, or_false] at hp
    rcases hp with rfl | rfl | rfl
    · rw [hcA]
      simp
    · rw [hcA]
      simp
    · rw [hcB]
      simp
  · intro hp
    simp only [List.mem_cons, List.not_mem_nil, or_false, Prod.mk.injEq] at hp
    rcases hp with ⟨rfl, rfl⟩ | ⟨rfl, rfl⟩
    · exact ⟨by simp, hcA.symm⟩
    · exact ⟨by simp, hcB.symm⟩

theorem mostCommon_strict_max (A B : Nat) (m : List (Nat × Nat))
    (h : m.Perm [(A, 2), (B, 1)]) : mostCommon m = A := by
  rcases perm_pair_cases h with h1 | h1 <;> rw [h1] <;> rfl

theorem lookupVotes_perm (m m' : List (Cell × List Nat)) (hm : (keysOf m).Nodup)
    (h : m.Perm m') (k : Cell) : lookupVotes m k = lookupVotes m' k := by
  have hm' : (keysOf m').Nodup := (h.map Prod.fst).nodup_iff.mp hm
  by_cases hk : k ∈ keysOf m
  · have h1 := (mem_assoc_iff m hm k _).mpr ⟨hk, rfl⟩
    have h2 := h.mem_iff.mp h1
    exact ((mem_assoc_iff m' hm' k _).mp h2).2
  · have hk' : ¬ k ∈ keysOf m' := fun hc => hk ((h.map Prod.fst).mem_iff.mpr hc)
    rw [lookupVotes_eq_nil_of_not_mem _ _ hk, lookupVotes_eq_nil_of_not_mem _ _ hk']

/-- C4 counterexample: the dead cell `(2147483646, 0)` of `majBoundaryDb`
geometrically has exactly 3 live neighbours owned 5, 5 and 9, but the two
neighbours at `x = i32::MAX` push no votes (their wrapped loops are empty),
so the cell receives a single vote and is *not* born — refuting the claim,
whose hypotheses hold at this input while its conclusion fails. -/
theorem birth_majority_boundary_counterexample :
    isAliveIn majBoundaryDb (2147483646, 0) = false ∧
      (votesFor majBoundaryDb (2147483646, 0)).Perm [5, 5, 9] ∧ (5 : Nat) ≠ 9 ∧
      rowsAt (tickRun id majBoundaryDb (aggregate majBoundaryDb)) (2147483646, 0) = [] :=
  ⟨by decide, by decide, by decide, by decide⟩

/-- C4 amended: a dead cell with exactly 3 live neighbours at tick start,
two owned by player `A` and one by player `B` with `A ≠ B`, is alive after
one tick with `player_id = A` (the strict majority owner), whatever
iteration orders the candidate map and the counts map use — provided the
table's coordinates are valid `i32` values (as the program's table
guarantees) and every live cell 8-adjacent to the cell lies strictly inside
the `i32` extremes, so its votes are actually pushed. -/
theorem birth_majority_owner (sigma : List (Nat × Nat) → List (Nat × Nat))
    (db0 : List AliveCell) (cands : List (Cell × List Nat)) (k : Cell) (A B : Nat)
    (hsig : ∀ l, (sigma l).Perm l)
    (hcands : cands.Perm (aggregate db0))
    (hval : ∀ a ∈ db0, i32Valid a = true)
    (hnbr : ∀ a ∈ db0, adjacent8 (a.x, a.y) k = true → i32Inner a = true)
    (hdead : isAliveIn db0 k = false)
    (hv : (votesFor db0 k).Perm [A, A, B]) (hAB : A ≠ B) :
    rowsAt (tickRun sigma db0 cands) k = [⟨k.1, k.2, A⟩] := by
  have hkeys : (keysOf cands).Nodup :=
    (hcands.map Prod.fst).nodup_iff.mpr (nodup_keysOf_aggregate db0)
  have hlen : (votesFor db0 k).length = 3 := by
    rw [hv.length_eq]
    rfl
  rw [tickRun_eq_tickBatch _ _ _ hkeys]
  unfold tickBatch rowsAt
  rw [List.filter_append]
  have h1 : (db0.filter (fun b => !cands.any (fun e => killedBy e b))).filter
      (fun r => decide ((r.x, r.y) = k)) = [] := by
    rw [List.filter_eq_nil_iff]
    intro b hb hc
    rw [List.mem_filter] at hb
    rw [decide_eq_true_eq] at hc
    have hd2 := hdead
    rw [isAliveIn, List.any_eq_false] at hd2
    have hfalse := hd2 b hb.1
    simp [hc] at hfalse
  have hkmem : k ∈ keysOf cands := by
    have hpos : 0 < (db0.filter (fun a => adjacent8 (a.x, a.y) k)).length := by
      have hl2 := hlen
      unfold votesFor at hl2
      rw [List.length_map] at hl2
      omega
    obtain ⟨c, hc⟩ :=
      List.exists_mem_of_ne_nil _ (List.ne_nil_of_length_pos hpos)
    rw [List.mem_filter] at hc
    have hinC : i32Inner c = true := hnbr c hc.1 hc.2
    have hkb : k ∈ block c :=
      (mem_block_inner c hinC k).mpr ((adjacent8_self_iff c k).mp hc.2).1
    have hagg : k ∈ keysOf (aggregate db0) :=
      (mem_keysOf_aggregate db0 k).mpr ⟨c, hc.1, hkb⟩
    exact (hcands.map Prod.fst).mem_iff.mpr hagg
  have hlook : lookupVotes cands k = votesFor db0 k := by
    rw [lookupVotes_perm cands (aggregate db0) hkeys hcands k, lookupVotes_aggregate,
      pushedVotes_eq_votesFor db0 k hval hnbr]
  have hbornk : bornAt db0 (k, votesFor db0 k) = true := by
    unfold bornAt
    rw [hdead]
    simp [hlen]
  have howner : mostCommon (sigma (buildCounts (votesFor db0 k))) = A :=
    mostCommon_strict_max A B _
      ((hsig _).trans (buildCounts_perm_two_one _ A B hv hAB))
  have h2 : ((cands.filter (bornAt db0)).map (bornCell sigma)).filter
      (fun r => decide ((r.x, r.y) = k)) = [⟨k.1, k.2, A⟩] := by
    rw [List.filter_map]
    have hcomp : (cands.filter (bornAt db0)).filter
        ((fun r => decide ((r.x, r.y) = k)) ∘ bornCell sigma) =
        (cands.filter (bornAt db0)).filter (fun e => decide (e.1 = k)) := by
      apply List.filter_congr
      intro e _
      simp only [Function.comp]
      rw [bornCell_coord]
    rw [hcomp, List.filter_filter]
    have hswap : cands.filter (fun e => decide (e.1 = k) && bornAt db0 e) =
        (cands.filter (fun e => decide (e.1 = k))).filter (bornAt db0) := by
      rw [List.filter_filter]
      apply List.filter_congr
      intro e _
      rw [Bool.and_comm]
    rw [hswap, filter_key_of_mem cands hkeys k hkmem, hlook]
    rw [List.filter_cons, if_pos (by rw [hbornk])]
    simp only [List.filter_nil, List.map_cons, List.map_nil]
    unfold bornCell
    rw [howner]
  rw [h1, h2]
  rfl

/-- C4 witness: the dead cell `(1,1)` of `majDb` has live neighbours owned
5, 5, 9, all strictly inside the `i32` extremes, and is born owned by
player 5. -/
theorem birth_majority_owner_witness :
    (isAliveIn majDb (1, 1) = false ∧ (votesFor majDb (1, 1)).Perm [5, 5, 9] ∧
        (5 : Nat) ≠ 9) ∧
      rowsAt (tickRun id majDb (aggregate majDb)) (1, 1) = [⟨1, 1, 5⟩] :=
  ⟨⟨by decide, by decide, by decide⟩,
    birth_majority_owner id majDb (aggregate majDb) (1, 1) 5 9 (fun l => List.Perm.refl l)
      (List.Perm.refl _) (by decide) (by decide) (by decide) (by decide) (by decide)⟩

/-- C5: on `tieDb` the dead cell `(1,1)` has exactly 3 live neighbours
owned by players 1, 2 and 3 (a 1/1/1 split).  Two executions of the tick on
this same state that only differ in the counts map's iteration order — the
identity order and its reversal, both permutations of the same map — assign
different owners (3 resp. 1) to the born cell, so the owner is not a
function of the tick input: the reference tie-break is non-deterministic,
exactly as the specification warns. -/
theorem tie_break_depends_on_map_order :
    votesFor tieDb (1, 1) = [1, 2, 3] ∧
      (List.reverse [((1 : Nat), (1 : Nat)), (2, 1), (3, 1)]).Perm [(1, 1), (2, 1), (3, 1)] ∧
      rowsAt (tickRun id tieDb (aggregate tieDb)) (1, 1) = [⟨1, 1, 3⟩] ∧
      rowsAt (tickRun (fun l => l.reverse) tieDb (aggregate tieDb)) (1, 1) = [⟨1, 1, 1⟩] :=
  ⟨by decide, by decide, by decide, by decide⟩

theorem i32Valid_of_inner (a : AliveCell) (h : i32Inner a = true) : i32Valid a = true := by
  simp only [i32Inner, i32Valid, I32_MIN, I32_MAX, Bool.and_eq_true, decide_eq_true_eq] at h ⊢
  omega

/-- C6 counterexample: with the single alive cell at `(2147483647, 0)` the
aggregation pass builds an *empty* candidate map — the cell's wrapped `i32`
loops visit nothing — while the claim requires every alive coordinate to be
a candidate key. -/
theorem aggregate_misses_boundary_cell :
    (⟨2147483647, 0, 1⟩ : AliveCell) ∈ boundaryDb ∧
      aggregate boundaryDb = [] ∧
      ¬ (2147483647, 0) ∈ keysOf (aggregate boundaryDb) :=
  ⟨by decide, by decide, by decide⟩

/-- C6 amended: when every alive cell lies strictly inside the `i32`
extremes (so no aggregation loop wraps), the candidate map contains exactly
the coordinates that are alive or 8-adjacent to an alive cell, each
coordinate at most once, and each candidate's vote list is exactly the
owners of its live 8-neighbours in snapshot order (`votesFor` excludes the
candidate's own coordinate, so a cell never contributes a vote to itself);
in particular a dead cell with no live neighbour is never a candidate, and
an alive cell with no live neighbour is a candidate with an empty vote
list.  (At an `i32` extreme a cell instead contributes nothing at all.) -/
theorem aggregate_candidates_exact (cells : List AliveCell) (k : Cell)
    (hinner : ∀ a ∈ cells, i32Inner a = true) :
    (k ∈ keysOf (aggregate cells) ↔
      (∃ a ∈ cells, (a.x, a.y) = k ∨ adjacent8 (a.x, a.y) k = true)) ∧
      (keysOf (aggregate cells)).Nodup ∧
      lookupVotes (aggregate cells) k = votesFor cells k := by
  refine ⟨?_, nodup_keysOf_aggregate cells, ?_⟩
  · rw [mem_keysOf_aggregate]
    constructor
    · rintro ⟨a, ha, hbl⟩
      refine ⟨a, ha, ?_⟩
      have hin : inBlock a k = true := (mem_block_inner a (hinner a ha) k).mp hbl
      by_cases hself : (a.x, a.y) = k
      · exact Or.inl hself
      · exact Or.inr ((adjacent8_self_iff a k).mpr ⟨hin, fun hc => hself hc.symm⟩)
    · rintro ⟨a, ha, hor⟩
      refine ⟨a, ha, (mem_block_inner a (hinner a ha) k).mpr ?_⟩
      rcases hor with hself | hadj
      · rw [← hself]
        exact inBlock_self a
      · exact ((adjacent8_self_iff a k).mp hadj).1
  · rw [lookupVotes_aggregate]
    exact pushedVotes_eq_votesFor cells k (fun a ha => i32Valid_of_inner a (hinner a ha))
      (fun a ha _ => hinner a ha)

/-- C6 witness: the amended theorem exercised on `majDb` at the candidate
`(1, 1)`. -/
theorem aggregate_candidates_exact_witness :
    (keysOf (aggregate majDb)).Nodup ∧
      lookupVotes (aggregate majDb) (1, 1) = votesFor majDb (1, 1) :=
  ⟨(aggregate_candidates_exact majDb (1, 1) (by decide)).2.1,
    (aggregate_candidates_exact majDb (1, 1) (by decide)).2.2⟩

/-- C7 counterexample: `set_color` called by identity 99, which has no
Player row in `sampleState`, completes normally (returns `ok` with the
state unchanged) instead of failing — refuting the claim that both `add`
and `set_color` fail outright on an unknown identity. -/
theorem set_color_unknown_identity_completes :
    sampleState.players.find? (fun p => p.identity == 99) = none ∧
      set_color sampleState 99 "#00FF00" = .ok sampleState :=
  ⟨by decide, rfl⟩

/-- C7 amended: for a caller with no Player row, `add` fails outright (its
`unwrap` aborts the transaction) leaving all state unchanged, while
`set_color` completes normally as a no-op, also leaving all state
unchanged. -/
theorem unknown_identity_add_fails_set_color_noop (s : DbState) (sender : Nat)
    (cells : List Cell) (hex : String)
    (hfind : s.players.find? (fun p => p.identity == sender) = none) :
    add s sender cells = .error "called Option::unwrap on a None value" ∧
      set_color s sender hex = .ok s := by
  unfold add set_color
  rw [hfind]
  exact ⟨rfl, rfl⟩

/-- C7 witness: the amended behaviour at identity 99 on `sampleState`. -/
theorem unknown_identity_witness :
    sampleState.players.find? (fun p => p.identity == 99) = none ∧
      (add sampleState 99 [(1, 1)] = .error "called Option::unwrap on a None value" ∧
        set_color sampleState 99 "#0F0F0F" = .ok sampleState) :=
  ⟨by decide,
    unknown_identity_add_fails_set_color_noop sampleState 99 [(1, 1)] "#0F0F0F" (by decide)⟩

/-- C8 counterexample: `update_tick_interval 4294968` stores 4294968 ms in
Config but sets the trigger period to 704 µs instead of 4294968000 µs: the
`u32` multiplication `interval_ms * 1000` wraps modulo 2^32 before the
widening cast, so the stored config and the trigger period do not agree for
all inputs. -/
theorem update_tick_interval_wraps :
    update_tick_interval sampleState 4294968 =
      .ok ⟨sampleState.alive_cells, sampleState.players, [⟨0, 4294968⟩], [⟨0, 704⟩]⟩ ∧
      (4294968 * 1000) % U32 = 704 ∧ (4294968 * 1000 = 4294968000) ∧
      ((704 : Int) ≠ 4294968000) :=
  ⟨rfl, by norm_num [U32], by norm_num, by norm_num⟩

/-- C8 amended: whenever `interval_ms * 1000 < 2^32` (no `u32` wrap) and
the two singleton rows exist, `update_tick_interval` stores `interval_ms`
in the Config row and sets the trigger period to exactly
`interval_ms * 1000` microseconds, leaving the other tables unchanged; for
larger inputs the stored period is `(interval_ms * 1000) mod 2^32`. -/
theorem update_tick_interval_consistent_below_wrap (s : DbState) (interval_ms : Nat)
    (c0 : Config) (t0 : TickSchedule)
    (hc : s.config.find? (fun c => c.id == 0) = some c0)
    (ht : s.tick_schedule.find? (fun t => t.scheduled_id == 0) = some t0)
    (hms : interval_ms * 1000 < U32) :
    update_tick_interval s interval_ms =
      .ok { s with
        config := s.config.map (fun d => if d.id == 0 then ⟨0, interval_ms⟩ else d),
        tick_schedule := s.tick_schedule.map
          (fun u => if u.scheduled_id == 0 then ⟨0, ((interval_ms * 1000 : Nat) : Int)⟩
            else u) } := by
  have hc0 : c0.id = 0 := by simpa using List.find?_some hc
  have ht0 : t0.scheduled_id = 0 := by simpa using List.find?_some ht
  simp only [update_tick_interval, hc, ht, hc0, ht0, Nat.mod_eq_of_lt hms]

/-- C8 witness: the amended theorem at interval 250 ms on `sampleState`. -/
theorem update_tick_interval_witness :
    (sampleState.config.find? (fun c => c.id == 0) = some ⟨0, 500⟩ ∧
      sampleState.tick_schedule.find? (fun t => t.scheduled_id == 0) = some ⟨0, 500000⟩ ∧
      250 * 1000 < U32) ∧
      update_tick_interval sampleState 250 =
        .ok { sampleState with
          config := sampleState.config.map (fun d => if d.id == 0 then ⟨0, 250⟩ else d),
          tick_schedule := sampleState.tick_schedule.map
            (fun u => if u.scheduled_id == 0 then ⟨0, ((250 * 1000 : Nat) : Int)⟩
              else u) } :=
  ⟨⟨by decide, by decide, by decide⟩,
    update_tick_interval_consistent_below_wrap sampleState 250 ⟨0, 500⟩ ⟨0, 500000⟩
      (by decide) (by decide) (by decide)⟩

/-- C9: when the caller has a Player row (identities being unique, as the
table's unique constraint guarantees), `set_color` rewrites only the
caller's own row — its `color_hex` becomes the argument while its `id` and
`identity` are preserved — and every other Player row, the alive-cell
table, the Config row and the TickSchedule row are unchanged. -/
theorem set_color_only_own_row (s : DbState) (sender : Nat) (hex : String) (p : Player)
    (hfind : s.players.find? (fun q => q.identity == sender) = some p)
    (hnodup : (s.players.map Player.identity).Nodup) :
    set_color s sender hex =
      .ok { s with
        players := s.players.map
          (fun q => if q.identity == sender then ⟨q.id, q.identity, hex⟩ else q) } := by
  have hp : p.identity = sender := by simpa using List.find?_some hfind
  have hpmem : p ∈ s.players := List.mem_of_find?_eq_some hfind
  simp only [set_color, hfind]
  rw [hp]
  refine congrArg Except.ok (congrArg (fun ps => { s with players := ps }) ?_)
  apply List.map_congr_left
  intro q hq
  by_cases hqi : q.identity = sender
  · have hqp : q = p :=
      List.inj_on_of_nodup_map hnodup hq hpmem (by rw [hqi, hp])
    subst hqp
    simp [hqi, hp]
  · simp [hqi]

/-- C9 witness: player 1 (identity 10) recolours itself on `sampleState`;
only its own row changes. -/
theorem set_color_only_own_row_witness :
    (sampleState.players.find? (fun q => q.identity == 10) =
        some ⟨1, 10, "#FFFFFF"⟩ ∧
      (sampleState.players.map Player.identity).Nodup) ∧
      set_color sampleState 10 "#00FF00" =
        .ok { sampleState with
          players := sampleState.players.map
            (fun q => if q.identity == 10 then ⟨q.id, q.identity, "#00FF00"⟩ else q) } :=
  ⟨⟨by decide, by decide⟩,
    set_color_only_own_row sampleState 10 "#00FF00" ⟨1, 10, "#FFFFFF"⟩
      (by decide) (by decide)⟩

end GameOfSpaceAndTime
